import Mathlib

/-!
Verification of the telegram summarizer bot (`src/app.py`).

The program is shallowly embedded:
* Python strings become `List Char` (named `Line`);
* `datetime` values become `PyDateTime` (a wall-clock value in minutes plus
  an optional UTC offset: `tz = none` models a naive datetime);
* the in-memory store `channel_messages` becomes a total function
  `ChatId → List Message` (Python's `dict.get(chat_id, [])` returns `[]`
  for an absent key, so absent and empty buffers are observationally equal);
* the Groq completion client becomes an oracle `Line → Except E Line`
  (prompt in, generated text or an exception out); Python exception
  propagation becomes `Except.error` propagation.
-/

set_option maxRecDepth 4096

namespace TgSum

/-- A Python string, embedded as its character list. -/
abbrev Line := List Char

/-- ASCII whitespace stripped by Python's `str.strip()`. -/
def pyIsSpace (c : Char) : Bool :=
  c = ' ' || c = '\t' || c = '\n' || c = '\r' || c = '\x0b' || c = '\x0c'

/-- Python `str.strip()`: drop leading and trailing whitespace. -/
def pyStrip (s : Line) : Line :=
  ((s.dropWhile pyIsSpace).reverse.dropWhile pyIsSpace).reverse

/-- A Python `datetime`: wall-clock time in minutes together with the UTC
offset (in minutes) of its `tzinfo`, or `none` when naive. -/
structure PyDateTime where
  wall : Int
  tz : Option Int
deriving DecidableEq

/-- The comparison key Python uses: aware datetimes compare by absolute
instant (wall minus offset), naive datetimes by wall clock.  Python raises
`TypeError` on naive/aware mixtures; the model is used only under the
spec's "consistent timezone basis within one conversation" invariant
(hypotheses of the theorems below), where no mixture occurs. -/
def dtKey (t : PyDateTime) : Int :=
  match t.tz with
  | some off => t.wall - off
  | none => t.wall

/-- Python `a >= b` on datetimes. -/
def dtGe (a b : PyDateTime) : Bool := dtKey b ≤ dtKey a

/-- Python `a <= b` on datetimes. -/
def dtLe (a b : PyDateTime) : Bool := dtKey a ≤ dtKey b

/-- Python `a < b` on datetimes. -/
def dtLt (a b : PyDateTime) : Bool := dtKey a < dtKey b

/-- Python `t - timedelta(hours=h)`: shifts the wall clock, keeps `tzinfo`. -/
def pySubHours (t : PyDateTime) (h : Int) : PyDateTime :=
  { t with wall := t.wall - 60 * h }

/-- The ambient real time: the current absolute instant (UTC, minutes) and
the server's local UTC offset, parameters of every run. -/
structure Env where
  nowUtc : Int
  localOff : Int

/-- `datetime.now(tz=tz) if tz else datetime.now()`: the current instant
rendered in `tz` when one is given, else the naive local wall clock. -/
def pyNow (env : Env) (tz : Option Int) : PyDateTime :=
  match tz with
  | some off => { wall := env.nowUtc + off, tz := some off }
  | none => { wall := env.nowUtc + env.localOff, tz := none }

/-- One stored chat entry, the dict appended by `collect_message`
(`{"text": ..., "timestamp": ..., "user": ...}`). -/
structure Message where
  text : Line
  timestamp : PyDateTime
  user : Line
deriving DecidableEq

abbrev ChatId := Int

/-- The `channel_messages` dict, as a total function with default `[]`. -/
abbrev Store := ChatId → List Message

/-- `get_messages_by_timeframe` (src/app.py lines 43-51): pick the buffer,
return `[]` when empty, compute `now` in the last message's timezone and
keep the messages at or after `now - timedelta(hours=hours)`. -/
def get_messages_by_timeframe (store : Store) (env : Env) (chat_id : ChatId)
    (hours : Int) : List Message :=
  let messages := store chat_id
  match messages.getLast? with
  | none => []
  | some last =>
    let tz := last.timestamp.tz
    let now := pyNow env tz
    let cutoff := pySubHours now hours
    messages.filter (fun m => dtGe m.timestamp cutoff)

/-! ### The chunker (src/app.py lines 76-92) -/

/-- `est = max(1, len(line) // 4)` (line 82). -/
def lineCost (line : Line) : Nat := max 1 (line.length / 4)

/-- `max_tokens_per_block = 3200` (line 79). -/
def max_tokens_per_block : Nat := 3200

/-- Python `"\n".join(...)` over embedded strings. -/
def joinNL : List Line → Line
  | [] => []
  | [b] => b
  | b :: bs => b ++ '\n' :: joinNL bs

/-- One iteration of the chunking loop (lines 81-89), the state being
`(blocks, current, current_tokens)`, with blocks kept as their line lists
(the joined form is `blockStep` below). -/
def chunkStep (st : List (List Line) × List Line × Nat) (line : Line) :
    List (List Line) × List Line × Nat :=
  if st.2.1 ≠ [] ∧ st.2.2 + lineCost line > max_tokens_per_block then
    (st.1 ++ [st.2.1], [line], lineCost line)
  else
    (st.1, st.2.1 ++ [line], st.2.2 + lineCost line)

/-- The chunking loop plus the final flush (lines 76-92), with each block
kept as its list of lines. -/
def chunkLines (lines : List Line) : List (List Line) :=
  let r := lines.foldl chunkStep ([], [], 0)
  if r.2.1 ≠ [] then r.1 ++ [r.2.1] else r.1

/-- One iteration of the chunking loop exactly as in the source: a closed
block is appended as the joined text `"\n".join(current)` (line 84). -/
def blockStep (st : List Line × List Line × Nat) (line : Line) :
    List Line × List Line × Nat :=
  if st.2.1 ≠ [] ∧ st.2.2 + lineCost line > max_tokens_per_block then
    (st.1 ++ [joinNL st.2.1], [line], lineCost line)
  else
    (st.1, st.2.1 ++ [line], st.2.2 + lineCost line)

/-- The `blocks` list built by lines 76-92: block texts joined with `"\n"`. -/
def pyBlocks (lines : List Line) : List Line :=
  let r := lines.foldl blockStep ([], [], 0)
  if r.2.1 ≠ [] then r.1 ++ [joinNL r.2.1] else r.1

/-- Python `s.split("\n")`: cut at every newline; the empty string yields
`[""]`. -/
def splitNL : Line → List Line
  | [] => [[]]
  | c :: rest =>
    match splitNL rest with
    | [] => [[]]
    | h :: t => if c = '\n' then [] :: h :: t else (c :: h) :: t

/-- Total estimated cost of a block, the sum of its per-line costs. -/
def blockCost (b : List Line) : Nat := (b.map lineCost).sum

/-! ### The hierarchical summarizer (src/app.py lines 54-155) -/

/-- Two-digit decimal rendering used by `strftime` fields. -/
def twoDigits (n : Nat) : Line := [Nat.digitChar (n / 10 % 10), Nat.digitChar (n % 10)]

/-- `timestamp.strftime('%H:%M')` (line 70) over the minute-based clock. -/
def fmtHM (t : PyDateTime) : Line :=
  twoDigits ((t.wall / 60) % 24).toNat ++ ':' :: twoDigits ((t.wall % 60)).toNat

/-- The f-string of line 70: `[HH:MM] user: t`. -/
def formatLine (m : Message) (t : Line) : Line :=
  '[' :: (fmtHM m.timestamp ++ ']' :: ' ' :: (m.user ++ ':' :: ' ' :: t))

/-- Lines 64-70: format each message, skipping those whose text strips to
empty (`if not t: continue`). -/
def buildLines (messages : List Message) : List Line :=
  messages.filterMap (fun m =>
    let t := pyStrip m.text
    if t = [] then none else some (formatLine m t))

/-- Line 62. -/
def no_messages_result : Line := "No messages to summarize.".data

/-- Line 73. -/
def no_text_result : Line := "No text messages found to summarize.".data

/-- `partial_prompt_tpl` (lines 98-114) up to the interpolation point. -/
def partial_prompt_head : Line :=
  "Ты делаешь краткое резюме ЧАСТИ мамского чата.\n\nВытащи только полезное:\n- рекомендации (врачи/товары/сервисы) с коротким \"почему\"\n- массовые покупки / итог выбора (если виден консенсус: \"я тоже\", \"беру\", \"заказала\" и т.п.)\n- конкретику (цены, сроки, контакты, чек-листы)\nСлучайные одиночные ссылки без поддержки — не включай.\n\nВерни очень коротко и структурировано:\n- Рекомендации:\n- Покупки/итоги:\n- Конкретика:\n- Болталка (1 строка):\n\nСообщения:\n".data

/-- `partial_prompt_tpl.format(block=block)` (line 118). -/
def partial_prompt (block : Line) : Line := partial_prompt_head ++ block ++ ['\n']

/-- `final_prompt` (lines 126-147) up to the interpolation point. -/
def final_prompt_head : Line :=
  "Ты объединяешь несколько кратких резюме частей мамского чата в ОДНО итоговое summary.\n\nПравила:\n- Повторы объединяй.\n- Считай \"итог/массовая покупка\" только если видно поддержку нескольких людей (пример: \"я тоже\", \"беру\", \"заказала\").\n- Ссылку указывай ТОЛЬКО если это рекомендация/итог/массовая покупка.\n- Болталку сжать до 1–2 строк.\n- Добавь Mood одной строкой.\n\nФормат (строго):\nMood: одна короткая строка.\n\nПолезное:\n- Массовые покупки / что решили брать:\n- Рекомендации (врачи / товары / сервисы):\n- Полезные списки и конкретика:\n\nБолталка (1–2 строки):\n\nРезюме частей:\n".data

/-- The Stage-2 prompt with `chr(10).flatten(partials)` interpolated. -/
def final_prompt (partials : List Line) : Line :=
  final_prompt_head ++ joinNL partials ++ ['\n']

/-- The Stage-1 loop (lines 116-123): one completion call per block in
order; a raised exception aborts the loop and propagates.  The oracle `o1`
stands for `client.chat.completions.create` on the partial prompt. -/
def runStage1 {E : Type} (o1 : Line → Except E Line) :
    List Line → Except E (List Line)
  | [] => Except.ok []
  | b :: bs =>
    match o1 (partial_prompt b) with
    | Except.error e => Except.error e
    | Except.ok p =>
      match runStage1 o1 bs with
      | Except.error e => Except.error e
      | Except.ok ps => Except.ok (p :: ps)

/-- `generate_summary` (lines 54-155), parameterized by the Stage-1 and
Stage-2 completion oracles. -/
def generate_summary {E : Type} (o1 o2 : Line → Except E Line)
    (messages : List Message) : Except E Line :=
  if messages.isEmpty then Except.ok no_messages_result
  else
    let lines := buildLines messages
    if lines.isEmpty then Except.ok no_text_result
    else
      match runStage1 o1 (pyBlocks lines) with
      | Except.error e => Except.error e
      | Except.ok partials => o2 (final_prompt partials)

/-! ### Ingestion and command handlers (src/app.py lines 176-301) -/

/-- `telegram.User`, the fields `collect_message` reads. -/
structure TgUser where
  username : Option Line
  first_name : Option Line
deriving DecidableEq

/-- `telegram.Chat` as `sender_chat`, the field `collect_message` reads. -/
structure TgChat where
  title : Line
deriving DecidableEq

/-- An inbound Telegram message, the fields `collect_message` reads.
`text = none` models Python `None`; `some []` models the empty string. -/
structure TgMessage where
  text : Option Line
  caption : Option Line
  date : PyDateTime
  chat_id : ChatId
  from_user : Option TgUser
  sender_chat : Option TgChat
deriving DecidableEq

/-- An inbound update: `update.channel_post` and `update.message`. -/
structure TgUpdate where
  channel_post : Option TgMessage
  message : Option TgMessage
deriving DecidableEq

/-- Python `a or b` on two optional objects (objects are truthy). -/
def pyOrMsg (a b : Option TgMessage) : Option TgMessage :=
  match a with
  | some m => some m
  | none => b

/-- Python `s or d` where `s` is an optional string (both `None` and the
empty string are falsy). -/
def pyOrLine : Option Line → Line → Line
  | some l, d => if l = [] then d else l
  | none, d => d

/-- `msg.text and msg.text.startswith("/")` (line 182). -/
def isCommandText : Option Line → Bool
  | some ('/' :: _) => true
  | _ => false

/-- Lines 189-192: username / source resolution. -/
def resolveUser (update : TgUpdate) (msg : TgMessage) : Line :=
  match update.message, msg.from_user with
  | some _, some u => pyOrLine u.username (pyOrLine u.first_name "Unknown".data)
  | _, _ =>
    match msg.sender_chat with
    | some c => c.title
    | none => "Channel".data

/-- Append one entry to a chat's buffer (`setdefault` plus `append`). -/
def updateStore (store : Store) (chat : ChatId) (m : Message) : Store :=
  fun c => if c = chat then store c ++ [m] else store c

/-- `collect_message` (lines 176-200) as a store transformer. -/
def collect_message (store : Store) (update : TgUpdate) : Store :=
  match pyOrMsg update.channel_post update.message with
  | none => store
  | some msg =>
    if isCommandText msg.text then store
    else
      updateStore store msg.chat_id
        { text := pyOrLine msg.text (pyOrLine msg.caption []),
          timestamp := msg.date,
          user := resolveUser update msg }

/-- The observable outcome of `summary_command` (lines 203-216): `none`
models the "no messages in the last 24 hours" reply; otherwise the reply
carries `len(msgs)` and the generated summary. -/
def summary_command_reply {E : Type} (o1 o2 : Line → Except E Line)
    (store : Store) (env : Env) (chat : ChatId) : Option (Nat × Except E Line) :=
  let msgs := get_messages_by_timeframe store env chat 24
  if msgs.isEmpty then none
  else some (msgs.length, generate_summary o1 o2 msgs)

/-- The message-selection part of `summary_yesterday` (lines 249-260):
`now` from the last message's timezone, window `[now-48h, now-24h)`. -/
def summary_yesterday_selection (store : Store) (env : Env) (chat : ChatId) :
    List Message :=
  let all_msgs := store chat
  match all_msgs.getLast? with
  | none => []
  | some last =>
    let tz := last.timestamp.tz
    let now := pyNow env tz
    let start := pySubHours now 48
    let stop := pySubHours now 24
    all_msgs.filter (fun m => dtLe start m.timestamp && dtLt m.timestamp stop)

/-- `clear_messages` (lines 297-301): the reported count and the new store. -/
def clear_messages (store : Store) (chat : ChatId) : Nat × Store :=
  ((store chat).length, fun c => if c = chat then [] else store c)

/-- A well-formed block: non-empty, and within the ceiling unless it is a
single line. -/
def goodBlock (b : List Line) : Prop :=
  b ≠ [] ∧ (blockCost b ≤ max_tokens_per_block ∨ ∃ x, b = [x])

/-! ### Concrete inputs used by witnesses and counterexamples -/

/-- A concrete two-line input used by several witnesses. -/
def wLines : List Line := ["ab".data, "cd".data]

/-- A line whose own cost estimate `max(1, 12804 / 4) = 3201` exceeds the
3200 ceiling. -/
def bigLine : Line := List.replicate 12804 'a'

/-- A cheap line (cost 1). -/
def shortLine : Line := "hi".data

/-- A Stage-1 oracle / Stage-2 oracle that always fails with `"boom"`. -/
def oracleFail : Line → Except Line Line := fun _ => Except.error "boom".data

/-- An oracle that always succeeds, echoing its prompt. -/
def oracleOk : Line → Except Line Line := fun p => Except.ok p

/-- A message with only whitespace text. -/
def wEmptyTextMsg : Message :=
  { text := "  ".data, timestamp := { wall := 0, tz := none }, user := "u".data }

/-- A message with real text. -/
def wTextMsg : Message :=
  { text := "hi".data, timestamp := { wall := 0, tz := none }, user := "u".data }

/-- A three-message aware buffer at `now - 30h`, `now - 10h`, `now - 1h`
(minutes, `nowUtc = 0`). -/
def wStore : Store := fun c =>
  if c = 0 then
    [⟨"a".data, ⟨-1800, some 0⟩, "u".data⟩,
     ⟨"b".data, ⟨-600, some 0⟩, "u".data⟩,
     ⟨"c".data, ⟨-60, some 0⟩, "u".data⟩]
  else []

/-- An environment at instant 0 with a +3h local offset. -/
def wEnv : Env := ⟨0, 180⟩

/-- An inbound message carrying neither text nor caption. -/
def wNoTextTgMsg : TgMessage :=
  { text := none, caption := none, date := { wall := 0, tz := none },
    chat_id := 0, from_user := none, sender_chat := none }

/-- An update wrapping `wNoTextTgMsg` as a plain chat message. -/
def wUpdate : TgUpdate := { channel_post := none, message := some wNoTextTgMsg }

/-- The empty store. -/
def wEmptyStore : Store := fun _ => []

/-! ### Chunker lemmas -/

theorem chunkLines_def (lines : List Line) :
    chunkLines lines =
      if (lines.foldl chunkStep ([], [], 0)).2.1 ≠ []
      then (lines.foldl chunkStep ([], [], 0)).1
            ++ [(lines.foldl chunkStep ([], [], 0)).2.1]
      else (lines.foldl chunkStep ([], [], 0)).1 := rfl

theorem pyBlocks_def (lines : List Line) :
    pyBlocks lines =
      if (lines.foldl blockStep ([], [], 0)).2.1 ≠ []
      then (lines.foldl blockStep ([], [], 0)).1
            ++ [joinNL (lines.foldl blockStep ([], [], 0)).2.1]
      else (lines.foldl blockStep ([], [], 0)).1 := rfl

theorem foldl_chunkStep_join (l : List Line) (bs : List (List Line))
    (c : List Line) (t : Nat) :
    (l.foldl chunkStep (bs, c, t)).1.flatten ++ (l.foldl chunkStep (bs, c, t)).2.1
      = bs.flatten ++ c ++ l := by
  induction l generalizing bs c t with
  | nil => simp
  | cons x xs ih =>
    rw [List.foldl_cons]
    by_cases h : c ≠ [] ∧ t + lineCost x > max_tokens_per_block
    · have hs : chunkStep (bs, c, t) x = (bs ++ [c], [x], lineCost x) := by
        simp only [chunkStep]; rw [if_pos h]
      rw [hs, ih]
      simp
    · have hs : chunkStep (bs, c, t) x = (bs, c ++ [x], t + lineCost x) := by
        simp only [chunkStep]; rw [if_neg h]
      rw [hs, ih]
      simp

theorem chunk_join (lines : List Line) : (chunkLines lines).flatten = lines := by
  have h := foldl_chunkStep_join lines [] [] 0
  rw [chunkLines_def]
  by_cases hc : (lines.foldl chunkStep ([], [], 0)).2.1 = []
  · rw [if_neg (by simp [hc])]
    rw [hc, List.append_nil] at h
    simpa using h
  · rw [if_pos hc]
    simpa using h

theorem foldl_chunkStep_inv (l : List Line) (bs : List (List Line))
    (c : List Line) (t : Nat)
    (hbs : ∀ b ∈ bs, goodBlock b) (ht : t = blockCost c)
    (hc : c = [] ∨ blockCost c ≤ max_tokens_per_block ∨ ∃ x, c = [x]) :
    (∀ b ∈ (l.foldl chunkStep (bs, c, t)).1, goodBlock b)
    ∧ (l.foldl chunkStep (bs, c, t)).2.2
        = blockCost (l.foldl chunkStep (bs, c, t)).2.1
    ∧ ((l.foldl chunkStep (bs, c, t)).2.1 = []
        ∨ blockCost (l.foldl chunkStep (bs, c, t)).2.1 ≤ max_tokens_per_block
        ∨ ∃ x, (l.foldl chunkStep (bs, c, t)).2.1 = [x]) := by
  induction l generalizing bs c t with
  | nil => exact ⟨hbs, ht, hc⟩
  | cons x xs ih =>
    rw [List.foldl_cons]
    by_cases h : c ≠ [] ∧ t + lineCost x > max_tokens_per_block
    · have hs : chunkStep (bs, c, t) x = (bs ++ [c], [x], lineCost x) := by
        simp only [chunkStep]; rw [if_pos h]
      rw [hs]
      apply ih
      · intro b hb
        rcases List.mem_append.1 hb with hb | hb
        · exact hbs b hb
        · have hbc : b = c := by simpa using hb
          subst hbc
          refine ⟨h.1, ?_⟩
          rcases hc with h0 | h1 | h2
          · exact absurd h0 h.1
          · exact Or.inl h1
          · exact Or.inr h2
      · simp [blockCost]
      · exact Or.inr (Or.inr ⟨x, rfl⟩)
    · have hs : chunkStep (bs, c, t) x = (bs, c ++ [x], t + lineCost x) := by
        simp only [chunkStep]; rw [if_neg h]
      rw [hs]
      apply ih
      · exact hbs
      · simp [blockCost, ht]
      · by_cases hce : c = []
        · subst hce
          exact Or.inr (Or.inr ⟨x, rfl⟩)
        · have hle : t + lineCost x ≤ max_tokens_per_block := by
            rcases not_and_or.1 h with h' | h'
            · exact absurd hce (by simpa using h')
            · omega
          refine Or.inr (Or.inl ?_)
          have : blockCost (c ++ [x]) = blockCost c + lineCost x := by
            simp [blockCost]
          omega

theorem chunk_blocks_good (lines : List Line) :
    ∀ b ∈ chunkLines lines, goodBlock b := by
  intro b hb
  have h := foldl_chunkStep_inv lines [] [] 0 (by simp) (by simp [blockCost])
    (Or.inl rfl)
  rw [chunkLines_def] at hb
  by_cases hc : (lines.foldl chunkStep ([], [], 0)).2.1 = []
  · rw [if_neg (by simp [hc])] at hb
    exact h.1 b hb
  · rw [if_pos hc] at hb
    rcases List.mem_append.1 hb with hb | hb
    · exact h.1 b hb
    · have hbc : b = (lines.foldl chunkStep ([], [], 0)).2.1 := by simpa using hb
      subst hbc
      refine ⟨hc, ?_⟩
      rcases h.2.2 with h0 | h1 | h2
      · exact absurd h0 hc
      · exact Or.inl h1
      · exact Or.inr h2

theorem foldl_blockStep_eq (l : List Line) (bs : List (List Line))
    (c : List Line) (t : Nat) :
    l.foldl blockStep (bs.map joinNL, c, t)
      = ((l.foldl chunkStep (bs, c, t)).1.map joinNL,
         (l.foldl chunkStep (bs, c, t)).2.1,
         (l.foldl chunkStep (bs, c, t)).2.2) := by
  induction l generalizing bs c t with
  | nil => rfl
  | cons x xs ih =>
    rw [List.foldl_cons, List.foldl_cons]
    by_cases h : c ≠ [] ∧ t + lineCost x > max_tokens_per_block
    · have h1 : blockStep (bs.map joinNL, c, t) x
          = (bs.map joinNL ++ [joinNL c], [x], lineCost x) := by
        simp only [blockStep]; rw [if_pos h]
      have h2 : chunkStep (bs, c, t) x = (bs ++ [c], [x], lineCost x) := by
        simp only [chunkStep]; rw [if_pos h]
      rw [h1, h2]
      have h3 := ih (bs ++ [c]) [x] (lineCost x)
      simpa using h3
    · have h1 : blockStep (bs.map joinNL, c, t) x
          = (bs.map joinNL, c ++ [x], t + lineCost x) := by
        simp only [blockStep]; rw [if_neg h]
      have h2 : chunkStep (bs, c, t) x = (bs, c ++ [x], t + lineCost x) := by
        simp only [chunkStep]; rw [if_neg h]
      rw [h1, h2]
      exact ih bs (c ++ [x]) (t + lineCost x)

theorem pyBlocks_eq (lines : List Line) :
    pyBlocks lines = (chunkLines lines).map joinNL := by
  have h := foldl_blockStep_eq lines [] [] 0
  rw [pyBlocks_def, chunkLines_def]
  rw [show (lines.foldl blockStep ([], [], 0))
        = (lines.foldl blockStep (([] : List (List Line)).map joinNL, [], 0))
      from rfl, h]
  by_cases hc : (lines.foldl chunkStep ([], [], 0)).2.1 = []
  · simp [hc]
  · simp [hc]

/-! ### `splitNL` lemmas -/

theorem splitNL_ne_nil (s : Line) : splitNL s ≠ [] := by
  induction s with
  | nil => simp [splitNL]
  | cons c rest ih =>
    simp only [splitNL]
    cases hys : splitNL rest with
    | nil => simp
    | cons h' t => by_cases hc : c = '\n' <;> simp [hc]

theorem splitNL_no_nl (b : Line) (h : '\n' ∉ b) : splitNL b = [b] := by
  induction b with
  | nil => rfl
  | cons c rest ih =>
    have hc : c ≠ '\n' := fun hcc => h (hcc ▸ List.mem_cons_self c rest)
    have hr : '\n' ∉ rest := fun hm => h (List.mem_cons_of_mem _ hm)
    simp only [splitNL, ih hr]
    simp [hc]

theorem splitNL_append (b : Line) (h : '\n' ∉ b) (ys : Line) :
    splitNL (b ++ '\n' :: ys) = b :: splitNL ys := by
  induction b with
  | nil =>
    simp only [List.nil_append, splitNL]
    cases hys : splitNL ys with
    | nil => exact absurd hys (splitNL_ne_nil ys)
    | cons h' t => simp
  | cons c rest ih =>
    have hc : c ≠ '\n' := fun hcc => h (hcc ▸ List.mem_cons_self c rest)
    have hr : '\n' ∉ rest := fun hm => h (List.mem_cons_of_mem _ hm)
    simp only [List.cons_append, splitNL, List.append_eq]
    rw [ih hr]
    simp [hc]

theorem splitNL_joinNL (ps : List Line) (hne : ps ≠ [])
    (h : ∀ p ∈ ps, '\n' ∉ p) : splitNL (joinNL ps) = ps := by
  induction ps with
  | nil => exact absurd rfl hne
  | cons p ps ih =>
    cases ps with
    | nil => exact splitNL_no_nl p (h p (by simp))
    | cons q qs =>
      rw [show joinNL (p :: q :: qs) = p ++ '\n' :: joinNL (q :: qs) from rfl]
      rw [splitNL_append p (h p (by simp))]
      rw [ih (by simp) (fun r hr => h r (List.mem_cons_of_mem _ hr))]

/-! ### Claim theorems: the chunker -/

/-- C1: for every input line sequence the chunker's blocks, decomposed back
into their lines and concatenated in output order, give exactly the original
line sequence — no line lost, duplicated or reordered.  The first conjunct
states it at the block/line level, the second ties the source's joined block
texts to that decomposition, and the third states the round trip through
`split("\n")` itself, for line sequences that contain no embedded newline
(formatted lines are single lines of text). -/
theorem chunker_reconstructs_lines (lines : List Line) :
    (chunkLines lines).flatten = lines
    ∧ pyBlocks lines = (chunkLines lines).map joinNL
    ∧ ((∀ l ∈ lines, '\n' ∉ l) →
        ((pyBlocks lines).map splitNL).flatten = lines) := by
  refine ⟨chunk_join lines, pyBlocks_eq lines, ?_⟩
  intro hnl
  rw [pyBlocks_eq, List.map_map]
  have hmap : (chunkLines lines).map (splitNL ∘ joinNL)
      = (chunkLines lines).map id := by
    apply List.map_congr_left
    intro b hb
    have hgood := chunk_blocks_good lines b hb
    have hsub : ∀ p ∈ b, '\n' ∉ p := by
      intro p hp
      apply hnl
      rw [← chunk_join lines]
      exact List.mem_flatten.2 ⟨b, hb, hp⟩
    simpa using splitNL_joinNL b hgood.1 hsub
  rw [hmap, List.map_id]
  exact chunk_join lines

/-- Witness for C1 at the concrete input `["ab", "cd"]`. -/
theorem chunker_reconstructs_lines_witness :
    ((pyBlocks wLines).map splitNL).flatten = wLines :=
  (chunker_reconstructs_lines wLines).2.2 (by decide)

/-- C2: every block the chunker produces either keeps its summed per-line
cost `max(1, len // 4)` at or below the fixed 3200 ceiling, or is a single
line whose own cost exceeds the ceiling. -/
theorem chunk_ceiling_property (lines : List Line) :
    ∀ b ∈ chunkLines lines,
      blockCost b ≤ max_tokens_per_block
      ∨ ∃ l, b = [l] ∧ max_tokens_per_block < lineCost l := by
  intro b hb
  have h := chunk_blocks_good lines b hb
  rcases h.2 with h1 | ⟨x, rfl⟩
  · exact Or.inl h1
  · by_cases hx : lineCost x ≤ max_tokens_per_block
    · exact Or.inl (by simpa [blockCost] using hx)
    · exact Or.inr ⟨x, rfl, by omega⟩

/-- Witness for C2 at the concrete input `["ab", "cd"]`, whose single block
holds both lines. -/
theorem chunk_ceiling_property_witness :
    blockCost ["ab".data, "cd".data] ≤ max_tokens_per_block
    ∨ ∃ l, (["ab".data, "cd".data] : List Line) = [l]
            ∧ max_tokens_per_block < lineCost l :=
  chunk_ceiling_property wLines ["ab".data, "cd".data] (by decide)

/-- C3: a line whose own cost exceeds the ceiling is always the sole line of
its block (first conjunct), and no line is ever dropped or split across
blocks (second conjunct: the blocks decompose to exactly the input). -/
theorem oversized_line_isolated (lines : List Line) :
    (∀ b ∈ chunkLines lines, ∀ x ∈ b,
        max_tokens_per_block < lineCost x → b = [x])
    ∧ (chunkLines lines).flatten = lines := by
  refine ⟨?_, chunk_join lines⟩
  intro b hb x hx hbig
  have h := chunk_blocks_good lines b hb
  rcases h.2 with h1 | ⟨y, rfl⟩
  · exfalso
    have hle : lineCost x ≤ blockCost b := by
      have hmem : lineCost x ∈ b.map lineCost := List.mem_map_of_mem _ hx
      simpa [blockCost] using
        List.single_le_sum (fun n _ => Nat.zero_le n) _ hmem
    omega
  · have hxy : x = y := by simpa using hx
    subst hxy
    rfl

theorem lineCost_bigLine : lineCost bigLine = 3201 := by
  rw [lineCost, show bigLine.length = 12804 by
    rw [bigLine, List.length_replicate]]
  rfl

theorem chunkLines_short_big :
    chunkLines [shortLine, bigLine] = [[shortLine], [bigLine]] := by
  rw [chunkLines_def]
  have h1 : lineCost shortLine = 1 := by decide
  simp [List.foldl, chunkStep, h1, lineCost_bigLine, max_tokens_per_block]

/-- Witness for C3: the 12804-character line lands alone in its own block of
`chunkLines ["hi", bigLine]`, and the blocks decompose to the input. -/
theorem oversized_line_isolated_witness :
    ([bigLine] : List Line) = [bigLine]
    ∧ (chunkLines [shortLine, bigLine]).flatten = [shortLine, bigLine] :=
  ⟨(oversized_line_isolated [shortLine, bigLine]).1 [bigLine]
      (by rw [chunkLines_short_big]; simp) bigLine (by simp)
      (by rw [lineCost_bigLine]; norm_num [max_tokens_per_block]),
   (oversized_line_isolated [shortLine, bigLine]).2⟩

/-- C10: every block the chunker emits contains at least one line, the final
flushed block included; and when every input line is non-empty (as the
formatted lines are), every joined block text is a non-empty string. -/
theorem blocks_nonempty (lines : List Line) :
    (∀ b ∈ chunkLines lines, b ≠ [])
    ∧ ((∀ l ∈ lines, l ≠ []) → ∀ t ∈ pyBlocks lines, t ≠ []) := by
  constructor
  · exact fun b hb => (chunk_blocks_good lines b hb).1
  · intro hl t ht
    rw [pyBlocks_eq] at ht
    rcases List.mem_map.1 ht with ⟨b, hb, rfl⟩
    have hgood := chunk_blocks_good lines b hb
    cases b with
    | nil => exact absurd rfl hgood.1
    | cons p ps =>
      have hp : p ≠ [] := hl p (by
        rw [← chunk_join lines]
        exact List.mem_flatten.2 ⟨p :: ps, hb, by simp⟩)
      cases ps with
      | nil => simpa [joinNL] using hp
      | cons q qs =>
        simp [show joinNL (p :: q :: qs) = p ++ '\n' :: joinNL (q :: qs)
          from rfl]

/-- Witness for C10: the single block text of `["ab", "cd"]` is non-empty. -/
theorem blocks_nonempty_witness : "ab\ncd".data ≠ ([] : Line) :=
  (blocks_nonempty wLines).2 (by decide) "ab\ncd".data (by decide)

/-! ### Claim theorems: the hierarchical summarizer -/

theorem generate_summary_def {E : Type} (o1 o2 : Line → Except E Line)
    (messages : List Message) :
    generate_summary o1 o2 messages =
      if messages.isEmpty then Except.ok no_messages_result
      else if (buildLines messages).isEmpty then Except.ok no_text_result
      else
        match runStage1 o1 (pyBlocks (buildLines messages)) with
        | Except.error e => Except.error e
        | Except.ok partials => o2 (final_prompt partials) := rfl

theorem buildLines_eq_nil (messages : List Message)
    (h : ∀ m ∈ messages, pyStrip m.text = []) : buildLines messages = [] := by
  rw [buildLines, List.filterMap_eq_nil_iff]
  intro m hm
  simp [h m hm]

/-- C5: summarizing an empty message list, or one whose messages all strip
to empty text, returns the corresponding fixed result; the result is the
same for every completion oracle, so no completion call contributes to it. -/
theorem empty_input_short_circuit {E : Type} (o1 o2 : Line → Except E Line)
    (messages : List Message)
    (h : messages = [] ∨ ∀ m ∈ messages, pyStrip m.text = []) :
    generate_summary o1 o2 messages
      = Except.ok
          (if messages.isEmpty then no_messages_result else no_text_result) := by
  rcases h with rfl | h
  · rfl
  · rw [generate_summary_def]
    by_cases hm : messages.isEmpty
    · simp [hm]
    · rw [if_neg hm, buildLines_eq_nil messages h]
      simp [hm]

/-- Witness for C5: one whitespace-only message, failing oracles, still the
fixed "no text" result. -/
theorem empty_input_short_circuit_witness :
    generate_summary oracleFail oracleFail [wEmptyTextMsg]
      = Except.ok no_text_result := by
  have h := empty_input_short_circuit oracleFail oracleFail [wEmptyTextMsg]
    (Or.inr (by decide))
  simpa using h

/-- C4 (amended): when some Stage-1 completion call fails, the run returns
exactly that raw error — no empty partial is substituted — and the result
does not depend on the Stage-2 oracle, so the fusion call is never made. -/
theorem stage1_failure_aborts {E : Type} (o1 o2 o2' : Line → Except E Line)
    (messages : List Message) (e : E)
    (h : runStage1 o1 (pyBlocks (buildLines messages)) = Except.error e) :
    generate_summary o1 o2 messages = Except.error e
    ∧ generate_summary o1 o2 messages = generate_summary o1 o2' messages := by
  have hm : messages.isEmpty = false := by
    cases hmm : messages.isEmpty
    · rfl
    · rw [List.isEmpty_iff] at hmm
      subst hmm
      rw [show pyBlocks (buildLines []) = [] from rfl] at h
      exact absurd h (by simp [runStage1])
  have hl : (buildLines messages).isEmpty = false := by
    cases hll : (buildLines messages).isEmpty
    · rfl
    · rw [List.isEmpty_iff] at hll
      rw [hll, show pyBlocks [] = [] from rfl] at h
      exact absurd h (by simp [runStage1])
  constructor
  · rw [generate_summary_def, hm, hl, h]
    simp
  · rw [generate_summary_def, generate_summary_def, hm, hl, h]

/-- Witness for C4's amended statement: one text message, a failing Stage-1
oracle; the raw error comes back and the Stage-2 oracle is irrelevant. -/
theorem stage1_failure_aborts_witness :
    generate_summary oracleFail oracleOk [wTextMsg] = Except.error "boom".data
    ∧ generate_summary oracleFail oracleOk [wTextMsg]
        = generate_summary oracleFail oracleFail [wTextMsg] :=
  stage1_failure_aborts oracleFail oracleOk oracleFail [wTextMsg]
    "boom".data rfl

/-- C4 counterexample: the claim also asserts that the caller receives an
error identifying the failed stage (and block index for Stage 1).  It does
not: `generate_summary` propagates the completion service's raw error
unchanged, so a Stage-1 failure and a Stage-2 failure with the same
underlying error produce identical results, and no decoding of the result
can report which stage failed.  Concretely, with one text message,
`oracleFail` as Stage-1 oracle gives the same result as `oracleOk` Stage-1
with `oracleFail` Stage-2. -/
theorem stage_error_not_identifiable :
    ¬ ∃ stageOf : Except Line Line → Bool,
        ∀ (o1 o2 : Line → Except Line Line) (messages : List Message),
          ((∃ e, runStage1 o1 (pyBlocks (buildLines messages))
              = Except.error e) →
            stageOf (generate_summary o1 o2 messages) = true)
          ∧ ((∃ ps, runStage1 o1 (pyBlocks (buildLines messages))
              = Except.ok ps) →
            (∃ e, generate_summary o1 o2 messages = Except.error e) →
            stageOf (generate_summary o1 o2 messages) = false) := by
  rintro ⟨f, hf⟩
  have hA := (hf oracleFail oracleOk [wTextMsg]).1 ⟨"boom".data, rfl⟩
  have hB := (hf oracleOk oracleFail [wTextMsg]).2 ⟨_, rfl⟩ ⟨"boom".data, rfl⟩
  rw [show generate_summary oracleFail oracleOk [wTextMsg]
      = Except.error "boom".data from rfl] at hA
  rw [show generate_summary oracleOk oracleFail [wTextMsg]
      = Except.error "boom".data from rfl] at hB
  rw [hA] at hB
  exact absurd hB (by decide)

/-! ### Claim theorems: timeframe selection -/

theorem getLast?_some_mem {α : Type} {l : List α} {a : α}
    (h : l.getLast? = some a) : a ∈ l := by
  rcases List.mem_getLast?_eq_getLast (Option.mem_def.mpr h) with ⟨hne, rfl⟩
  exact List.getLast_mem hne

theorem get_messages_by_timeframe_def (store : Store) (env : Env)
    (chat : ChatId) (hours : Int) :
    get_messages_by_timeframe store env chat hours =
      match (store chat).getLast? with
      | none => []
      | some last =>
        (store chat).filter (fun m =>
          dtGe m.timestamp
            (pySubHours (pyNow env last.timestamp.tz) hours)) := rfl

/-- C6: the selector returns `[]` on an empty buffer, preserves stored
order (sublist of the buffer), and keeps exactly the messages at or after
`now - hours`: with an aware most-recent message the cutoff is the absolute
instant `nowUtc - 60*hours` regardless of the display offset, and with a
naive buffer it is naive local time minus the window. -/
theorem timeframe_selector_correct (store : Store) (env : Env)
    (chat : ChatId) (hours : Int) :
    (store chat = [] → get_messages_by_timeframe store env chat hours = [])
    ∧ (get_messages_by_timeframe store env chat hours).Sublist (store chat)
    ∧ ((∀ m ∈ store chat, m.timestamp.tz.isSome) →
        get_messages_by_timeframe store env chat hours
          = (store chat).filter
              (fun m =>
                decide (env.nowUtc - 60 * hours ≤ dtKey m.timestamp)))
    ∧ ((∀ m ∈ store chat, m.timestamp.tz = none) →
        get_messages_by_timeframe store env chat hours
          = (store chat).filter
              (fun m =>
                decide (env.nowUtc + env.localOff - 60 * hours
                  ≤ m.timestamp.wall))) := by
  rw [get_messages_by_timeframe_def]
  cases hlast : (store chat).getLast? with
  | none =>
    rw [List.getLast?_eq_none_iff] at hlast
    refine ⟨fun _ => rfl, ?_, fun _ => ?_, fun _ => ?_⟩
    · rw [hlast]
    · rw [hlast]; rfl
    · rw [hlast]; rfl
  | some last =>
    have hmem : last ∈ store chat := getLast?_some_mem hlast
    refine ⟨fun hnil => absurd (hnil ▸ hmem) (List.not_mem_nil last),
      List.filter_sublist _, fun hall => ?_, fun hall => ?_⟩
    · rcases Option.isSome_iff_exists.1 (hall last hmem) with ⟨off, hoff⟩
      apply List.filter_congr
      intro m hm
      rcases Option.isSome_iff_exists.1 (hall m hm) with ⟨offm, hoffm⟩
      simp only [dtGe, hoff, pyNow, pySubHours, dtKey, hoffm]
      norm_num
      constructor <;> intro <;> omega
    · have hoff : last.timestamp.tz = none := hall last hmem
      apply List.filter_congr
      intro m hm
      have hoffm : m.timestamp.tz = none := hall m hm
      simp only [dtGe, hoff, pyNow, pySubHours, dtKey, hoffm]

/-- Witness for C6: the 24-hour window keeps exactly the `-10h` and `-1h`
messages. -/
theorem timeframe_selector_correct_witness :
    get_messages_by_timeframe wStore wEnv 0 24
      = [⟨"b".data, ⟨-600, some 0⟩, "u".data⟩,
         ⟨"c".data, ⟨-60, some 0⟩, "u".data⟩] := by
  rw [(timeframe_selector_correct wStore wEnv 0 24).2.2.1 (by decide)]
  decide

/-- C7: `summary_yesterday` selects exactly the stored messages with
`now - 48h <= t < now - 24h` (inclusive below, exclusive above), with `now`
taken from the most recent message's timezone, preserving stored order. -/
theorem yesterday_window_correct (store : Store) (env : Env) (chat : ChatId) :
    (store chat = [] → summary_yesterday_selection store env chat = [])
    ∧ (summary_yesterday_selection store env chat).Sublist (store chat)
    ∧ ((∀ m ∈ store chat, m.timestamp.tz.isSome) →
        summary_yesterday_selection store env chat
          = (store chat).filter
              (fun m =>
                decide (env.nowUtc - 60 * 48 ≤ dtKey m.timestamp)
                && decide (dtKey m.timestamp < env.nowUtc - 60 * 24)))
    ∧ ((∀ m ∈ store chat, m.timestamp.tz = none) →
        summary_yesterday_selection store env chat
          = (store chat).filter
              (fun m =>
                decide (env.nowUtc + env.localOff - 60 * 48 ≤ m.timestamp.wall)
                && decide (m.timestamp.wall
                  < env.nowUtc + env.localOff - 60 * 24))) := by
  rw [show summary_yesterday_selection store env chat =
      match (store chat).getLast? with
      | none => []
      | some last =>
        (store chat).filter (fun m =>
          dtLe (pySubHours (pyNow env last.timestamp.tz) 48) m.timestamp
          && dtLt m.timestamp (pySubHours (pyNow env last.timestamp.tz) 24))
    from rfl]
  cases hlast : (store chat).getLast? with
  | none =>
    rw [List.getLast?_eq_none_iff] at hlast
    refine ⟨fun _ => rfl, ?_, fun _ => ?_, fun _ => ?_⟩
    · rw [hlast]
    · rw [hlast]; rfl
    · rw [hlast]; rfl
  | some last =>
    have hmem : last ∈ store chat := getLast?_some_mem hlast
    refine ⟨fun hnil => absurd (hnil ▸ hmem) (List.not_mem_nil last),
      List.filter_sublist _, fun hall => ?_, fun hall => ?_⟩
    · rcases Option.isSome_iff_exists.1 (hall last hmem) with ⟨off, hoff⟩
      apply List.filter_congr
      intro m hm
      rcases Option.isSome_iff_exists.1 (hall m hm) with ⟨offm, hoffm⟩
      simp only [dtLe, dtLt, hoff, pyNow, pySubHours, dtKey, hoffm]
      congr 1 <;> norm_num <;> constructor <;> intro <;> omega
    · have hoff : last.timestamp.tz = none := hall last hmem
      apply List.filter_congr
      intro m hm
      have hoffm : m.timestamp.tz = none := hall m hm
      simp only [dtLe, dtLt, hoff, pyNow, pySubHours, dtKey, hoffm]

/-- Witness for C7: only the `now - 30h` message falls in the 24-48h-ago
window. -/
theorem yesterday_window_correct_witness :
    summary_yesterday_selection wStore wEnv 0
      = [⟨"a".data, ⟨-1800, some 0⟩, "u".data⟩] := by
  rw [(yesterday_window_correct wStore wEnv 0).2.2.1 (by decide)]
  decide

/-! ### Claim theorems: ingestion, counting and clearing -/

theorem buildLines_filter (msgs : List Message) :
    buildLines (msgs.filter (fun m => !(pyStrip m.text).isEmpty))
      = buildLines msgs := by
  induction msgs with
  | nil => rfl
  | cons m ms ih =>
    by_cases hm : pyStrip m.text = []
    · simp [buildLines, List.filter_cons, List.filterMap_cons, hm] at ih ⊢
      exact ih
    · simp [buildLines, List.filter_cons, List.filterMap_cons, hm] at ih ⊢
      exact ih

/-- C8: an ingested non-command message with neither text nor caption is
stored with empty text (first conjunct); messages whose text strips to
empty contribute nothing to the lines fed to the chunker and completion
calls (second conjunct); and the message count a summary reply reports is
the full selected count, the empty-text messages included (third conjunct:
the reported length decomposes as empty-text plus non-empty-text). -/
theorem empty_text_message_handling (store : Store) (update : TgUpdate)
    (msg : TgMessage) (h1 : pyOrMsg update.channel_post update.message = some msg)
    (h2 : msg.text = none) (h3 : msg.caption = none) :
    collect_message store update msg.chat_id
      = store msg.chat_id
        ++ [{ text := [], timestamp := msg.date, user := resolveUser update msg }]
    ∧ (∀ msgs : List Message,
        buildLines msgs
          = buildLines (msgs.filter (fun m => !(pyStrip m.text).isEmpty)))
    ∧ (∀ (E : Type) (o1 o2 : Line → Except E Line) (st : Store) (env : Env)
        (chat : ChatId) (n : Nat) (r : Except E Line),
        summary_command_reply o1 o2 st env chat = some (n, r) →
        n = ((get_messages_by_timeframe st env chat 24).filter
              (fun m => (pyStrip m.text).isEmpty)).length
          + ((get_messages_by_timeframe st env chat 24).filter
              (fun m => !(pyStrip m.text).isEmpty)).length) := by
  refine ⟨?_, fun msgs => (buildLines_filter msgs).symm, ?_⟩
  · unfold collect_message
    rw [h1]
    simp [h2, h3, isCommandText, updateStore, pyOrLine]
  · intro E o1 o2 st env chat n r h
    unfold summary_command_reply at h
    by_cases hm : (get_messages_by_timeframe st env chat 24).isEmpty
    · simp [hm] at h
    · simp [hm] at h
      obtain ⟨hn, -⟩ := h
      have hsplit := List.length_eq_length_filter_add
        (l := get_messages_by_timeframe st env chat 24)
        (fun m => (pyStrip m.text).isEmpty)
      omega

/-- Witness for C8 at a concrete captionless, textless update into an empty
store: the stored entry has empty text and the `"Channel"` fallback author
is not used (the sender resolves through the no-user branch). -/
theorem empty_text_message_handling_witness :
    collect_message wEmptyStore wUpdate 0
      = [{ text := [], timestamp := { wall := 0, tz := none },
           user := "Channel".data }] := by
  have h := (empty_text_message_handling wEmptyStore wUpdate wNoTextTgMsg
    rfl rfl rfl).1
  simpa [wEmptyStore, wNoTextTgMsg, wUpdate, resolveUser] using h

/-- C9: clearing a conversation leaves its buffer empty and reports the
number of messages buffered immediately before the call; an absent buffer
reads as empty, so the reported count is then zero. -/
theorem clear_messages_correct (store : Store) (chat : ChatId) :
    (clear_messages store chat).2 chat = []
    ∧ (clear_messages store chat).1 = (store chat).length := by
  constructor
  · simp [clear_messages]
  · rfl

end TgSum
